import Mathlib

/-!
Verification of the upstream synchronization engine (sync/upstream.py and
sync/command.py) against its natural-language specification.  The Python
functions named in the claims are shallowly embedded as executable Lean
definitions; commit hashes, bug numbers and PR numbers are modelled as
naturals, external services (GitHub, Bugzilla, the git remotes) as explicit
oracle parameters, and raised exceptions as `Except`.
-/

namespace WptSync

/-- Sync statuses of an UpstreamSync: the `statuses` tuple in upstream.py
line 84.  `opn` stands for the source string "open", which is a Lean keyword. -/
inductive Status where
| opn
| wptMerged
| complete
| incomplete
deriving DecidableEq, Repr

/-- The `status_transitions` class attribute of UpstreamSync
(upstream.py lines 85 to 89). -/
def statusTransitions : List (Status × Status) :=
[(Status.opn, Status.wptMerged),
 (Status.opn, Status.complete),
 (Status.opn, Status.incomplete),
 (Status.incomplete, Status.opn),
 (Status.wptMerged, Status.complete)]

/-- The allowed transition set spelled out in the spec, section 3.5 invariant 5:
open to wpt-merged, open to complete, open to incomplete, incomplete to open,
wpt-merged to complete, and no other. -/
def specAllowedTransitions : List (Status × Status) :=
[(Status.opn, Status.wptMerged),
 (Status.opn, Status.complete),
 (Status.opn, Status.incomplete),
 (Status.incomplete, Status.opn),
 (Status.wptMerged, Status.complete)]

/-- Modelled from the spec: the `SyncProcess.status` setter lives in
`sync/base.py`, which is not under src/ (src/ only holds its subclass
UpstreamSync and callers).  Per the spec, section 3.5 invariant 5 (the allowed
transitions and no other) together with section 7 (a broken state-machine
transition is an Invariant error, a fatal assertion that aborts the command),
the setter validates a requested transition against `status_transitions` and
raises on a disallowed one; re-assigning the current status is a no-op, since
operations such as update_modified_sync routinely re-assign the status a sync
already has. -/
def setStatus (cur newStatus : Status) : Except Unit Status :=
if cur = newStatus then Except.ok cur
else if (cur, newStatus) ∈ statusTransitions then Except.ok newStatus
else Except.error ()

/-- External service calls performed by the PR reconciler and by finish,
recorded as a trace in the order the source issues them. -/
inductive GhAction where
| closePull (pr : Nat)
| reopenPull (pr : Nat)
| commentMerged
| pushBranch
| createPr
| setLandedStatus
| deleteBranch (b : Nat)
deriving DecidableEq, Repr

/-- UpstreamSync.finish (upstream.py lines 504 to 515).  `super().finish(status)`
is defined in `sync/base.py`, not under src/; it is modelled from the spec
(section 4.7: finish "validates the transition, persists `status`") as
`setStatus`.  The remainder is the in-src part: for a terminal argument status
with a remote branch set, push a deletion of the remote branch, swallow
`git.GitCommandError` (`deleteOk = false` models the push raising it), and
clear `remote-branch` only in the `else:` arm of the try, that is only when
the push succeeded.  The result carries the persisted status, the new
remote-branch field and the trace of remote calls. -/
def finishU (cur newStatus : Status) (remoteBranch : Option Nat) (deleteOk : Bool) :
    Except Unit (Status × Option Nat × List GhAction) := do
  let st ← setStatus cur newStatus
  if newStatus = Status.wptMerged ∨ newStatus = Status.complete then
    match remoteBranch with
    | some b =>
      if deleteOk then pure (st, none, [GhAction.deleteBranch b])
      else pure (st, some b, [GhAction.deleteBranch b])
    | none => pure (st, remoteBranch, [])
  else pure (st, remoteBranch, [])

namespace Backouts

/-- A gecko commit as seen by the backout-cancellation code: its sha1 and,
when it is a backout, the sha1s of the commits it backs out (the first
component of `wpt_commits_backed_out()`). -/
structure GCommit where
  sha1 : Nat
  is_backout : Bool
  backedOut : List Nat
deriving DecidableEq, Repr

/-- One iteration of the loop of remove_complete_backouts (upstream.py lines
641 to 649): a backout whose backed-out sha1 set is contained in the running
set removes that set and adds nothing (the `continue`); every other commit,
backouts included, adds its own sha1. -/
def backoutStep (remaining : Finset Nat) (c : GCommit) : Finset Nat :=
if c.is_backout then
  let backedOut := c.backedOut.toFinset
  if backedOut ⊆ remaining then remaining \ backedOut
  else insert c.sha1 remaining
else insert c.sha1 remaining

/-- remove_complete_backouts (upstream.py lines 637 to 651): run the loop over
the whole list, then keep exactly the commits whose sha1 survives in
`commits_remaining`. -/
def remove_complete_backouts (commits : List GCommit) : List GCommit :=
commits.filter (fun item => decide (item.sha1 ∈ commits.foldl backoutStep ∅))

/-- The cancellation law in the words of the claim: iterate L in order
maintaining a set S; for each non-backout push its hash to S; for each backout
of commits B, if B is a subset of S, remove B from S and drop the backout,
else keep the backout.  Since the output is the subsequence of L whose hashes
remain in S, a kept backout leaves its own hash in S. -/
def cancellationStep (s : Finset Nat) (c : GCommit) : Finset Nat :=
if !c.is_backout then insert c.sha1 s
else if c.backedOut.toFinset ⊆ s then s \ c.backedOut.toFinset
else insert c.sha1 s

/-- The output of the cancellation law: the subsequence of L whose hashes
remain in the final S, preserving the order of L. -/
def cancellationLaw (commits : List GCommit) : List GCommit :=
commits.filter (fun item => decide (item.sha1 ∈ commits.foldl cancellationStep ∅))

end Backouts

namespace Checks

/-- The `status` field of a GitHub check run, as compared against the string
"completed" by the source. -/
inductive RunStatus where
| completed
| inProgress
| queued
deriving DecidableEq, Repr

/-- The `conclusion` field of a GitHub check run; the source only distinguishes
membership of ("success", "neutral"). -/
inductive Conclusion where
| success
| neutral
| failure
| cancelled
deriving DecidableEq, Repr

/-- One value of the check-run map returned by `get_check_runs`: the fields the
source reads. -/
structure CheckRun where
  required : Bool
  status : RunStatus
  conclusion : Conclusion
deriving DecidableEq, Repr

/-- The CheckStatus enum (upstream.py lines 1012 to 1016). -/
inductive CheckStatus where
| SUCCESS
| PENDING
| FAILURE
deriving DecidableEq, Repr

/-- commit_checks_pass (upstream.py lines 1030 to 1034): every check run is
either not required or completed with conclusion success or neutral. -/
def commit_checks_pass (checks : List CheckRun) : Bool :=
checks.all (fun item => item.required == false ||
  (item.status == RunStatus.completed &&
   (item.conclusion == Conclusion.success || item.conclusion == Conclusion.neutral)))

/-- commit_checks_complete (upstream.py lines 1037 to 1039): every check run
has status completed. -/
def commit_checks_complete (checks : List CheckRun) : Bool :=
checks.all (fun item => item.status == RunStatus.completed)

/-- get_check_status (upstream.py lines 1019 to 1027), applied to the values of
the fetched check-run map. -/
def get_check_status (checks : List CheckRun) : CheckStatus :=
if commit_checks_pass checks then CheckStatus.SUCCESS
else if !commit_checks_complete checks then CheckStatus.PENDING
else CheckStatus.FAILURE

/-- The SUCCESS condition in the words of the claim: all required checks are
completed with conclusion success or neutral. -/
def specSuccessCond (checks : List CheckRun) : Prop :=
∀ c ∈ checks, c.required = true →
  (c.status = RunStatus.completed ∧
    (c.conclusion = Conclusion.success ∨ c.conclusion = Conclusion.neutral))

/-- The PENDING trigger in the words of the claim: some check is not
completed. -/
def specPendingCond (checks : List CheckRun) : Prop :=
∃ c ∈ checks, c.status ≠ RunStatus.completed

end Checks

namespace Replay

/-- A gecko commit as seen by the replay engine: its sha1 and whether its diff
restricted to the tracked wpt subtree is empty, in which case
`gecko_commit.move` creates no wpt commit ("Some gecko commits may not result
in an upstream commit, if the patch has no effect", upstream.py lines 265
to 268). -/
structure GeckoC where
  sha1 : Nat
  patchEmpty : Bool
deriving DecidableEq, Repr

/-- The loop of update_wpt_commits (upstream.py lines 270 to 274): walk
`reversed(gecko_commits)` and pop the last element of `matching_commits`
until a commit whose sha1 is in the upstreamed set is found. -/
def matchingLoop (up : List Nat) : List GeckoC → List GeckoC → List GeckoC
| [], matching => matching
| r :: rs, matching =>
  if r.sha1 ∈ up then matching else matchingLoop up rs matching.dropLast

/-- The `matching_commits` value computed by update_wpt_commits: the loop is
run over the reversed gecko commit list starting from a copy of the whole
list. -/
def matchingCommits (gecko : List GeckoC) (up : List Nat) : List GeckoC :=
matchingLoop up gecko.reverse gecko

/-- The longest prefix of the gecko commits all of whose sha1s are present in
the upstreamed index, as worded by the claim and by spec section 4.3 step 1. -/
def longestAllPresent (gecko : List GeckoC) (up : List Nat) : List GeckoC :=
gecko.takeWhile (fun c => decide (c.sha1 ∈ up))

/-- The sha1s of the gecko commits whose patch is non-empty: replaying a list
of gecko commits with add_commit produces exactly one wpt commit, carrying the
gecko sha1 in its metadata, for each such commit. -/
def nonEmptyShas (l : List GeckoC) : List Nat :=
(l.filter (fun c => !c.patchEmpty)).map (fun c => c.sha1)

/-- UpstreamSync.add_commit (upstream.py lines 319 to 339) as its effect on the
wpt side branch, which is modelled as the list of originating gecko sha1s
carried in the metadata of its commits: a commit whose filtered patch is empty
produces nothing (`gecko_commit.move` returns None and the head is left), any
other appends one wpt commit recording its gecko sha1.  The guard against a
stale sidecar .diff file cannot fire here because update_wpt_commits has just
run `reset --hard; clean -fdx` on the worktree, and merge conflicts raised by
`move` are outside this model. -/
def addCommit (wpt : List Nat) (c : GeckoC) : List Nat :=
if c.patchEmpty then wpt else wpt ++ [c.sha1]

/-- The state update_wpt_commits operates on: the gecko commit range of the
sync and the wpt side branch, the latter given by the originating gecko sha1s
of its commits (so that `upstreamed_gecko_commits` is exactly `wpt`). -/
structure SyncState where
  gecko : List GeckoC
  wpt : List Nat
deriving DecidableEq, Repr

/-- The outcome of update_wpt_commits: the final state, the boolean return
value, and (as bookkeeping for the claims) the list of gecko commits that the
final loop passed to add_commit. -/
structure ReplayOut where
  state : SyncState
  changed : Bool
  replayed : List GeckoC
deriving DecidableEq, Repr

/-- UpstreamSync.update_wpt_commits (upstream.py lines 257 to 295).  An empty
gecko range returns false at once.  Otherwise `matching_commits` is computed
against the set of upstreamed sha1s; if its length, the gecko length and the
upstreamed length all agree the call returns false without touching anything.
Otherwise the side branch is truncated (to the base when the match is empty,
to the wpt commit at index `len(matching) - 1` when the match is shorter than
the upstreamed list), the worktree is cleaned, and every gecko commit past the
matching prefix is re-applied via add_commit. -/
def update_wpt_commits (s : SyncState) : ReplayOut :=
if s.gecko.length = 0 then ⟨s, false, []⟩
else
  let up := s.wpt
  let matching := matchingCommits s.gecko up
  if matching.length = s.gecko.length ∧ s.gecko.length = up.length then
    ⟨s, false, []⟩
  else
    let wpt1 :=
      if matching.length = 0 then []
      else if matching.length < up.length then up.take matching.length
      else s.wpt
    let rest := s.gecko.drop matching.length
    ⟨⟨s.gecko, rest.foldl addCommit wpt1⟩, true, rest⟩

end Replay

namespace Push

/-- The slice of an UpstreamSync read by updated_syncs_for_push and
updates_for_backout: its bug (the obj_id of its process name), its sequence
id, its status, the sha1s of its gecko commit range, the sha1s of its
upstreamed gecko commits, and its PR number. -/
structure SyncRec where
  bug : Nat
  seqId : Nat
  status : Status
  geckoCommits : List Nat
  upstreamedGecko : List Nat
  pr : Option Nat
deriving DecidableEq, Repr

/-- The Endpoints helper (upstream.py lines 654 to 678): it stores a first
commit and an optional second one; `head` returns the second when set, else
the first, and the head setter stores the second. -/
structure EndpointsM where
  first : Nat
  second : Option Nat
deriving DecidableEq, Repr

/-- Endpoints(commit). -/
def endpointsOf (sha : Nat) : EndpointsM := ⟨sha, none⟩

/-- The `head` setter of Endpoints. -/
def setHead (e : EndpointsM) (sha : Nat) : EndpointsM := ⟨e.first, some sha⟩

/-- Insert-or-replace on an association list, matching assignment to a Python
dict key: the first binding of the key is replaced in place, a fresh key is
appended. -/
def alSet {α β : Type} [DecidableEq α] : List (α × β) → α → β → List (α × β)
| [], k, v => [(k, v)]
| (k0, v0) :: rest, k, v =>
  if k0 = k then (k, v) :: rest else (k0, v0) :: alSet rest k v

/-- The create_syncs dictionary: it maps None to a list of Endpoints and bug
numbers to single Endpoints.  The None bucket is an `Option` because the early
return of updates_for_backout produces a dict without the None key, which a
later `dict.update` must not clobber. -/
structure CreateMap where
  noneBucket : Option (List EndpointsM)
  keyed : List (Nat × EndpointsM)
deriving DecidableEq, Repr

/-- The update_syncs dictionary, keyed by bug (None possible for the key taken
from `commit.bug`), holding the chosen sync and the new head commit sha1. -/
def UpdateMap : Type := List (Option Nat × (SyncRec × Nat))

instance : DecidableEq UpdateMap := by unfold UpdateMap; infer_instance

/-- `create_syncs.update(create)`: Python dict.update replaces the value of
every key present in the argument, including the whole None bucket. -/
def dictUpdateCreate (d e : CreateMap) : CreateMap :=
⟨match e.noneBucket with
 | some l => some l
 | none => d.noneBucket,
 e.keyed.foldl (fun acc kv => alSet acc kv.1 kv.2) d.keyed⟩

/-- `update_syncs.update(update)`. -/
def dictUpdateUpdate (d e : UpdateMap) : UpdateMap :=
e.foldl (fun acc kv => alSet acc kv.1 kv.2) d

/-- Python list.sort is stable and ascending; the source sorts by
`int(x.process_name.obj_id)`, which for an UpstreamSync is its BUG number
(obj_id = "bug", upstream.py line 83), not its sequence id. -/
def sortByBugKey (l : List SyncRec) : List SyncRec :=
List.insertionSort (fun a b => a.bug ≤ b.bug) l

/-- The recovery branch of updated_syncs_for_push (upstream.py lines 769 to
778) taken when the lookup returned two or more syncs: for status "open" then
"incomplete", filter, sort the copy by the bug key, and `.pop()` the last
element of the sorted copy. -/
def pickMostRecent (syncs : List SyncRec) : Option SyncRec :=
let openSyncs := syncs.filter (fun s => s.status == Status.opn)
if openSyncs ≠ [] then (sortByBugKey openSyncs).getLast?
else
  let incSyncs := syncs.filter (fun s => s.status == Status.incomplete)
  if incSyncs ≠ [] then (sortByBugKey incSyncs).getLast? else none

/-- The whole sync-choice block of updated_syncs_for_push (upstream.py lines
764 to 780): `sync = None`; when the lookup returned two or more syncs the
recovery branch computes a candidate; afterwards the unconditional
`if syncs: sync = syncs[0]` overwrites whatever the recovery branch picked
with the first element of the lookup result. -/
def pickSync (syncs : List SyncRec) : Option SyncRec :=
let sync : Option SyncRec :=
  if ¬(syncs.length = 0 ∨ syncs.length = 1) then pickMostRecent syncs
  else none
if syncs ≠ [] then syncs.head? else sync

/-- The tie-break in the words of the claim: the most-recently-created sync,
the maximal seq-id among the syncs with status open, or, if none are open,
among those with status incomplete.  Seq ids are modelled as naturals; their
numeric order is used for the maximum (for the inputs of interest the
lexicographic order of the decimal strings agrees with it). -/
def argmaxSeq (l : List SyncRec) : Option SyncRec :=
l.foldl (fun acc s =>
  match acc with
  | none => some s
  | some m => if m.seqId < s.seqId then some s else some m) none

/-- The sync the claim says should receive the update when the lookup returns
more than one sync. -/
def specMostRecent (syncs : List SyncRec) : Option SyncRec :=
let openSyncs := syncs.filter (fun s => s.status == Status.opn)
if openSyncs ≠ [] then argmaxSeq openSyncs
else
  let incSyncs := syncs.filter (fun s => s.status == Status.incomplete)
  if incSyncs ≠ [] then argmaxSeq incSyncs else none

/-- One commit returned by `wpt_commits_backed_out()`: the loop of
updates_for_backout reads its sha1 and its bug. -/
structure BackedRef where
  sha1 : Nat
  bug : Nat
deriving DecidableEq, Repr

/-- One commit of the push range as read by the loop of
updated_syncs_for_push: its sha1, its bug, the classification flags, whether
`commit.upstream_sync(...)` found an owning sync, and the result of
`wpt_commits_backed_out()`: the backed-out commits (sha1 and bug each) and the
associated bug list. -/
structure PushCommit where
  sha1 : Nat
  bug : Option Nat
  is_backout : Bool
  is_downstream : Bool
  is_landing : Bool
  hasUpstreamSync : Bool
  backedOut : List BackedRef
  backoutBugs : List Nat
deriving DecidableEq, Repr

/-- The oracle for `UpstreamSync.for_bug(git_gecko, git_wpt, bug,
statuses=("open", "incomplete"), flat=True)`. -/
structure PushEnv where
  forBug : Option Nat → List SyncRec

/-- Outcome of the loop of updates_for_backout: either the early
`return {}, {}` (the backout is already part of a sync) or the residual sha1
set and the accumulated update map. -/
inductive LoopOut where
| early
| done (shas : List Nat) (update : UpdateMap)

/-- The loop of updates_for_backout (upstream.py lines 692 to 706) over the
backed-out commits.  A lookup returning two or more syncs raises ValueError;
`syncs.pop()` takes the (single) last element; finding the backout itself in
the gecko range of the sync returns `{}, {}` at once; a backed-out commit
found among the upstreamed commits of the sync removes its sha1 from the
residual set and queues the sync for update.  Python removes from the sha1
set with set.remove, which cannot miss because the backed-out sha1s are
distinct; List.erase models it. -/
def backoutLoop (env : PushEnv) (commit : PushCommit) :
    List BackedRef → List Nat → UpdateMap → Except Unit LoopOut
| [], shas, um => Except.ok (LoopOut.done shas um)
| b :: rest, shas, um =>
  let syncs := env.forBug (some b.bug)
  if ¬(syncs.length = 0 ∨ syncs.length = 1) then Except.error ()
  else
    match syncs.getLast? with
    | none => backoutLoop env commit rest shas um
    | some sync =>
      if commit.sha1 ∈ sync.geckoCommits then Except.ok LoopOut.early
      else if b.sha1 ∈ sync.upstreamedGecko then
        backoutLoop env commit rest (shas.erase b.sha1)
          (alSet um (some sync.bug) (sync, commit.sha1))
      else backoutLoop env commit rest shas um

/-- updates_for_backout (upstream.py lines 681 to 724).  After the loop, a
non-empty residual set means the backout covers something beyond the known
open syncs: the first associated bug that is neither already queued for update
nor owner of an open/incomplete sync receives a keyed create entry, and when
no such bug exists the backout is appended to the anonymous None bucket. -/
def updates_for_backout (env : PushEnv) (commit : PushCommit) :
    Except Unit (CreateMap × UpdateMap) := do
  let shas0 := (commit.backedOut.map (fun b => b.sha1)).dedup
  match ← backoutLoop env commit commit.backedOut shas0 [] with
  | LoopOut.early => pure (⟨none, []⟩, [])
  | LoopOut.done shas um =>
    if shas ≠ [] then
      let backoutBug := commit.backoutBugs.find? (fun bug =>
        (List.lookup (some bug) um).isNone && (env.forBug (some bug)).isEmpty)
      match backoutBug with
      | none => pure (⟨some [endpointsOf commit.sha1], []⟩, um)
      | some b => pure (⟨some [], [(b, endpointsOf commit.sha1)]⟩, um)
    else pure (⟨some [], []⟩, um)

/-- The backout arm of the loop body (upstream.py lines 754 to 757), written
out separately so the control flow of processCommit can be characterised:
when the commit is a backout, merge the result of updates_for_backout into
both dictionaries. -/
def backoutPhase (env : PushEnv) (c : PushCommit) (st : CreateMap × UpdateMap) :
    Except Unit (CreateMap × UpdateMap) :=
if c.is_backout then do
  let (cr, up) ← updates_for_backout env c
  pure (dictUpdateCreate st.1 cr, dictUpdateUpdate st.2 up)
else pure st

/-- The per-bug else arm of the loop body (upstream.py lines 760 to 793),
written out separately: look the bug up in update_syncs, else run the sync
choice on the for_bug result; a chosen sync is queued for update (with the
commit as new head when the commit is not already in its gecko range, else,
when the sync has no PR, with its current head); with no sync the commit goes
to the create buckets. -/
def perBugPhase (env : PushEnv) (c : PushCommit) (st : CreateMap × UpdateMap) :
    CreateMap × UpdateMap :=
let (cm, um) := st
let syncPicked : Option SyncRec :=
  match List.lookup c.bug um with
  | some (s, _) => some s
  | none => pickSync (env.forBug c.bug)
match syncPicked with
| some s =>
  if c.sha1 ∉ s.geckoCommits then
    (cm, alSet um c.bug (s, c.sha1))
  else if s.pr = none then
    (cm, alSet um c.bug (s, s.geckoCommits.getLastD 0))
  else (cm, um)
| none =>
  match c.bug with
  | none =>
    (⟨some ((cm.noneBucket.getD []) ++ [endpointsOf c.sha1]), cm.keyed⟩, um)
  | some b =>
    match List.lookup b cm.keyed with
    | some e => (⟨cm.noneBucket, alSet cm.keyed b (setHead e c.sha1)⟩, um)
    | none => (⟨cm.noneBucket, alSet cm.keyed b (endpointsOf c.sha1)⟩, um)

/-- One iteration of the loop of updated_syncs_for_push (upstream.py lines 750
to 793) over the state (create_syncs, update_syncs).  A commit already owned
by a sync is skipped.  The backout test on line 754 is a plain `if`, not an
`elif`: after updates_for_backout runs, a backout that is neither downstream
nor landing continues into the per-bug else branch.  Downstream and landing
commits skip the per-bug branch. -/
def processCommit (env : PushEnv) (st : CreateMap × UpdateMap) (c : PushCommit) :
    Except Unit (CreateMap × UpdateMap) := do
  if c.hasUpstreamSync then pure st
  else do
    let st1 ←
      if c.is_backout then do
        let (cr, up) ← updates_for_backout env c
        pure (dictUpdateCreate st.1 cr, dictUpdateUpdate st.2 up)
      else pure st
    if c.is_downstream || c.is_landing then pure st1
    else pure (perBugPhase env c st1)

end Push

namespace Modified

/-- The slice of an UpstreamSync mutated by update_modified_sync and
update_github: the gecko commit range (with patch-emptiness flags, as in the
Replay model), the wpt side branch as the originating gecko sha1s of its
commits, the status, the PR number, the remote branch and the sticky error
flag. -/
structure ModSync where
  gecko : List Replay.GeckoC
  wpt : List Nat
  status : Status
  pr : Option Nat
  remoteBranch : Option Nat
  error : Bool
deriving DecidableEq, Repr

/-- Oracles for the external calls of update_github. -/
structure GhEnv where
  pullClosed : Nat → Bool
  merged : Nat → Bool
  pushRequired : Bool
  newPr : Nat
  genBranch : Nat
  deleteOk : Bool

/-- The unconditional tail of update_github (upstream.py lines 417 to 428):
return early when there are no gecko commits or no upstreamed commits, else
push when push_required (get_or_create_remote_branch names a branch when none
is stored), create the PR when there is none, and set the landed status. -/
def bottomHalf (env : GhEnv) (s : ModSync) (acts : List GhAction) :
    ModSync × List GhAction :=
if s.gecko.length = 0 then (s, acts)
else if s.wpt.length = 0 then (s, acts)
else
  let s1 :=
    if env.pushRequired ∧ s.remoteBranch = none
    then {s with remoteBranch := some env.genBranch} else s
  let acts1 := if env.pushRequired then acts ++ [GhAction.pushBranch] else acts
  match s1.pr with
  | none => ({s1 with pr := some env.newPr}, acts1 ++ [GhAction.createPr, GhAction.setLandedStatus])
  | some _ => (s1, acts1 ++ [GhAction.setLandedStatus])

/-- UpstreamSync.update_github (upstream.py lines 391 to 428).  With a PR and
an empty gecko range the PR is closed (and the tail then returns at once);
with a PR remotely closed but unmerged it is reopened; with a PR merged and
all local commits represented the sync is finished to complete (after a bug
comment unless the status is already terminal); with extra local commits after
a merge the sticky error is set.  Without any of those cases control reaches
the tail. -/
def update_github (env : GhEnv) (s : ModSync) : Except Unit (ModSync × List GhAction) :=
match s.pr with
| some p =>
  if s.gecko.length = 0 then
    Except.ok (s, [GhAction.closePull p])
  else if env.pullClosed p then
    if ¬ env.merged p then
      Except.ok (bottomHalf env s [GhAction.reopenPull p])
    else
      if s.wpt.length = s.gecko.length then do
        let cAct := if s.status ≠ Status.wptMerged ∧ s.status ≠ Status.complete
                    then [GhAction.commentMerged] else []
        let (st, rb, facts) ← finishU s.status Status.complete s.remoteBranch env.deleteOk
        pure ({s with status := st, remoteBranch := rb}, cAct ++ facts)
      else Except.ok ({s with error := true}, [])
  else Except.ok (bottomHalf env s [])
| none => Except.ok (bottomHalf env s [])

/-- update_modified_sync (upstream.py lines 848 to 894).  With an empty gecko
range the status is set to incomplete and, when no PR exists, the function
returns before update_github; the wpt commits are never touched on this path
(the source comment: GitHub only lets a closed PR be reopened if the branch
head is unchanged).  With gecko commits the status is set to open, the wpt
branch is replayed, and update_github runs.  The AbortError recovery for merge
conflicts is outside this model: the modelled replay is total. -/
def update_modified_sync (env : GhEnv) (s : ModSync) :
    Except Unit (ModSync × List GhAction) := do
  if s.gecko.length = 0 then do
    let st ← setStatus s.status Status.incomplete
    let s1 := {s with status := st}
    if s1.pr = none then pure (s1, [])
    else update_github env s1
  else do
    let st ← setStatus s.status Status.opn
    let s1 := {s with status := st}
    let r := Replay.update_wpt_commits ⟨s1.gecko, s1.wpt⟩
    let s2 := {s1 with wpt := r.state.wpt}
    update_github env s2

end Modified

namespace Landed

/-- UpstreamSync.gecko_landed (upstream.py lines 297 to 307).  `commits` is the
list of gecko commit sha1s of the sync and `isAncestorOfCentral` the oracle for
`git_gecko.is_ancestor(sha1, central)`.  An empty list returns false; a mix of
landed and unlanded commits logs a warning and returns false; otherwise the
shared ancestry value is returned. -/
def gecko_landed (commits : List Nat) (isAncestorOfCentral : Nat → Bool) : Bool :=
if commits.length = 0 then false
else
  let landed := commits.map isAncestorOfCentral
  if !(landed.all (fun item => item == landed.headD false)) then false
  else landed.headD false

end Landed

/-! Concrete instances used by counterexamples and witnesses. -/

/-- A sync with bug 5, seq-id 0, status open. -/
def s5a : Push.SyncRec := ⟨5, 0, Status.opn, [], [], none⟩

/-- A sync with bug 5, seq-id 1, status open: the more recently created one. -/
def s5b : Push.SyncRec := ⟨5, 1, Status.opn, [], [], none⟩

/-- An open sync for bug 9 holding gecko commits 10 and 11, of which 10 is
upstreamed. -/
def s9 : Push.SyncRec := ⟨9, 0, Status.opn, [10, 11], [10], some 2⟩

/-- An open sync for bug 7 holding gecko commit 15, upstreamed, with PR 3. -/
def s7 : Push.SyncRec := ⟨7, 0, Status.opn, [15], [15], some 3⟩

/-- A lookup oracle owning s9 for bug 9 and s7 for bug 7. -/
def envP : Push.PushEnv := ⟨fun b => if b = some 9 then [s9] else if b = some 7 then [s7] else []⟩

/-- A backout commit (sha1 20, authored against bug 7, neither downstream nor
landing, not yet owned by a sync) backing out commit 10 of bug 9. -/
def c0 : Push.PushCommit := ⟨20, some 7, true, false, false, false, [⟨10, 9⟩], [9]⟩

/-- A lookup oracle with no syncs at all. -/
def envW : Push.PushEnv := ⟨fun _ => []⟩

/-- A backout commit against no bug, backing out nothing known. -/
def cW : Push.PushCommit := ⟨1, none, true, false, false, false, [], []⟩

/-- A GitHub oracle: the PR is remotely open and unmerged, no push needed. -/
def envG : Modified.GhEnv := ⟨fun _ => false, fun _ => false, false, 0, 0, true⟩

/-- A sync whose gecko range was emptied by a later backout while its wpt
branch still holds the replay of commit 5 and PR 3 is open. -/
def s3cex : Modified.ModSync := ⟨[], [5], Status.opn, some 3, none, false⟩

/-- An incomplete sync with empty gecko range and no PR. -/
def s3w : Modified.ModSync := ⟨[], [7], Status.incomplete, none, none, false⟩

/-! Helper lemmas. -/

/-- The loop step of remove_complete_backouts and the step of the cancellation
law are the same function on sets. -/
theorem backoutStep_eq_cancellationStep :
    Backouts.backoutStep = Backouts.cancellationStep := by
  funext s c
  unfold Backouts.backoutStep Backouts.cancellationStep
  cases hc : c.is_backout <;> simp [hc]

/-- commit_checks_pass holds exactly when every required check is completed
with conclusion success or neutral. -/
theorem commit_checks_pass_iff (checks : List Checks.CheckRun) :
    Checks.commit_checks_pass checks = true ↔
      ∀ c ∈ checks, c.required = true →
        (c.status = Checks.RunStatus.completed ∧
          (c.conclusion = Checks.Conclusion.success ∨
           c.conclusion = Checks.Conclusion.neutral)) := by
  unfold Checks.commit_checks_pass
  rw [List.all_eq_true]
  refine forall_congr' fun c => forall_congr' fun _ => ?_
  cases hr : c.required <;>
    cases hs : c.status <;>
      cases hco : c.conclusion <;> simp [hr, hs, hco]

/-- commit_checks_complete holds exactly when every check run is completed. -/
theorem commit_checks_complete_iff (checks : List Checks.CheckRun) :
    Checks.commit_checks_complete checks = true ↔
      ∀ c ∈ checks, c.status = Checks.RunStatus.completed := by
  unfold Checks.commit_checks_complete
  rw [List.all_eq_true]
  refine forall_congr' fun c => forall_congr' fun _ => ?_
  cases hs : c.status <;> simp [hs]

/-- The sync-choice block always returns the first element of the lookup
result: the unconditional `if syncs: sync = syncs[0]` on lines 779 to 780
overwrites the candidate picked by the recovery branch, leaving it dead. -/
theorem pickSync_eq_head (syncs : List Push.SyncRec) :
    Push.pickSync syncs = syncs.head? := by
  unfold Push.pickSync
  cases syncs <;> simp

/-- nonEmptyShas distributes over append. -/
theorem nonEmptyShas_append (l1 l2 : List Replay.GeckoC) :
    Replay.nonEmptyShas (l1 ++ l2) =
      Replay.nonEmptyShas l1 ++ Replay.nonEmptyShas l2 := by
  unfold Replay.nonEmptyShas
  rw [List.filter_append, List.map_append]

/-- Membership in nonEmptyShas. -/
theorem mem_nonEmptyShas {x : Nat} {l : List Replay.GeckoC} :
    x ∈ Replay.nonEmptyShas l ↔
      ∃ c ∈ l, c.patchEmpty = false ∧ c.sha1 = x := by
  unfold Replay.nonEmptyShas
  simp only [List.mem_map, List.mem_filter, Bool.not_eq_true']
  constructor
  · rintro ⟨c, ⟨hcm, hce⟩, hcs⟩
    exact ⟨c, hcm, hce, hcs⟩
  · rintro ⟨c, hcm, hce, hcs⟩
    exact ⟨c, ⟨hcm, hce⟩, hcs⟩

/-- nonEmptyShas never lengthens the list. -/
theorem length_nonEmptyShas_le (l : List Replay.GeckoC) :
    (Replay.nonEmptyShas l).length ≤ l.length := by
  unfold Replay.nonEmptyShas
  rw [List.length_map]
  exact List.length_filter_le _ _

/-- nonEmptyShas preserves the length exactly when no patch is empty. -/
theorem length_nonEmptyShas_eq_iff (l : List Replay.GeckoC) :
    (Replay.nonEmptyShas l).length = l.length ↔
      ∀ c ∈ l, c.patchEmpty = false := by
  unfold Replay.nonEmptyShas
  rw [List.length_map]
  constructor
  · intro h c hc
    have hsub : List.Sublist (l.filter (fun c => !c.patchEmpty)) l :=
      List.filter_sublist l
    have heq := hsub.eq_of_length h
    have hcf : c ∈ l.filter (fun c => !c.patchEmpty) := by
      rw [heq]
      exact hc
    have := List.of_mem_filter hcf
    simpa [Bool.not_eq_true'] using this
  · intro h
    have heq : l.filter (fun c => !c.patchEmpty) = l :=
      List.filter_eq_self.mpr (fun a ha => by simp [h a ha])
    rw [heq]

/-- Replaying a list of gecko commits appends exactly the sha1s of the
non-empty ones. -/
theorem foldl_addCommit (l : List Replay.GeckoC) (w : List Nat) :
    l.foldl Replay.addCommit w = w ++ Replay.nonEmptyShas l := by
  induction l generalizing w with
  | nil => simp [Replay.nonEmptyShas]
  | cons c l ih =>
    rw [List.foldl_cons, ih]
    unfold Replay.addCommit Replay.nonEmptyShas
    cases hc : c.patchEmpty <;> simp [hc, List.filter_cons]

/-- Characterisation of the matching_commits loop of update_wpt_commits: the
result is the prefix of the gecko list running up to (and including) the LAST
commit whose sha1 is in the upstreamed set; every commit after it has a sha1
outside the set, and the prefix is empty exactly when no commit ends it with a
sha1 in the set. -/
theorem matchingCommits_spec (gecko : List Replay.GeckoC) (up : List Nat) :
    ∃ k, k ≤ gecko.length ∧
      Replay.matchingCommits gecko up = gecko.take k ∧
      (∀ c ∈ gecko.drop k, c.sha1 ∉ up) ∧
      (k = 0 ∨ ∃ c, (gecko.take k).getLast? = some c ∧ c.sha1 ∈ up) := by
  unfold Replay.matchingCommits
  induction gecko using List.reverseRecOn with
  | nil => exact ⟨0, by simp, rfl, by simp, Or.inl rfl⟩
  | append_singleton xs a ih =>
    by_cases ha : a.sha1 ∈ up
    · have hl : (xs ++ [a]).length = xs.length + 1 := by simp
      refine ⟨xs.length + 1, by simp, ?_, ?_, ?_⟩
      · rw [List.reverse_append]
        simp only [List.reverse_singleton, List.singleton_append]
        rw [Replay.matchingLoop, if_pos ha, ← hl, List.take_length]
      · rw [← hl, List.drop_length]
        simp
      · right
        rw [← hl, List.take_length]
        exact ⟨a, List.getLast?_concat _, ha⟩
    · obtain ⟨k, hk, hmatch, hdrop, hlast⟩ := ih
      refine ⟨k, le_trans hk (by simp), ?_, ?_, ?_⟩
      · rw [List.reverse_append]
        simp only [List.reverse_singleton, List.singleton_append]
        rw [Replay.matchingLoop, if_neg ha,
          show (xs ++ [a]).dropLast = xs by simp, hmatch,
          List.take_append_of_le_length hk]
      · intro c hc
        rw [List.drop_append_of_le_length hk] at hc
        rcases List.mem_append.mp hc with h1 | h1
        · exact hdrop c h1
        · rw [List.mem_singleton] at h1
          subst h1
          exact ha
      · rcases hlast with h0 | ⟨c, hcl, hcm⟩
        · exact Or.inl h0
        · right
          refine ⟨c, ?_, hcm⟩
          rw [List.take_append_of_le_length hk]
          exact hcl

/-- Running update_wpt_commits on a sync whose wpt branch is the faithful
replay of a prefix of its gecko commits (the normal situation after the gecko
head advanced) leaves the state canonical: the wpt branch holds exactly the
sha1s of the non-empty gecko commits.  Distinct sha1s are assumed, as in any
git commit range. -/
theorem update_canonical (gecko : List Replay.GeckoC) (m : Nat)
    (hnd : (gecko.map Replay.GeckoC.sha1).Nodup) :
    (Replay.update_wpt_commits ⟨gecko, Replay.nonEmptyShas (gecko.take m)⟩).state
      = ⟨gecko, Replay.nonEmptyShas gecko⟩ := by
  set up := Replay.nonEmptyShas (gecko.take m) with hup
  obtain ⟨k, hk, hmatch, hdrop, hlast⟩ := matchingCommits_spec gecko up
  have hmlen : (Replay.matchingCommits gecko up).length = k := by
    rw [hmatch, List.length_take]
    exact min_eq_left hk
  unfold Replay.update_wpt_commits
  dsimp only
  by_cases hg : gecko.length = 0
  · rw [if_pos hg]
    have hnil : gecko = [] := List.length_eq_zero.mp hg
    subst hnil
    dsimp only
    rw [hup]
    simp [Replay.nonEmptyShas]
  · rw [if_neg hg]
    by_cases hearly :
        (Replay.matchingCommits gecko up).length = gecko.length ∧
          gecko.length = up.length
    · rw [if_pos hearly]
      dsimp only
      obtain ⟨h1, h2⟩ := hearly
      have hle1 : up.length ≤ (gecko.take m).length := by
        rw [hup]
        exact length_nonEmptyShas_le _
      have hnm : gecko.length ≤ m := by
        rw [List.length_take] at hle1
        omega
      have htm : gecko.take m = gecko := List.take_of_length_le hnm
      rw [hup, htm]
    · rw [if_neg hearly]
      dsimp only
      congr 1
      by_cases hk0 : k = 0
      · subst hk0
        have hup0 : up = [] := by
          rw [List.eq_nil_iff_forall_not_mem]
          intro x hx
          rcases mem_nonEmptyShas.mp (hup ▸ hx) with ⟨c, hcm, hcne, hcs⟩
          have hcg : c ∈ gecko := List.take_subset m gecko hcm
          refine hdrop c ?_ ?_
          · rw [List.drop_zero]
            exact hcg
          · rw [hcs]
            exact hx
        rw [if_pos (by rw [hmlen])]
        rw [hmlen, List.drop_zero, foldl_addCommit]
        simp
      · rcases hlast with h0 | ⟨c, hcl, hcm⟩
        · exact absurd h0 hk0
        have hkm : k ≤ m := by
          by_contra hkm2
          push_neg at hkm2
          have hsplit : gecko.take k = gecko.take m ++ (gecko.take k).drop m := by
            conv_lhs => rw [← List.take_append_drop m (gecko.take k)]
            rw [List.take_take, min_eq_left (le_of_lt hkm2)]
          rcases eq_or_ne ((gecko.take k).drop m) [] with hmid | hmid
          · rw [hmid, List.append_nil] at hsplit
            have hlen := congrArg List.length hsplit
            rw [List.length_take, List.length_take] at hlen
            have hminm : min m gecko.length = m :=
              min_eq_left (le_of_lt (lt_of_lt_of_le hkm2 hk))
            have hmink : min k gecko.length = k := min_eq_left hk
            omega
          · rw [hsplit, List.getLast?_append_of_ne_nil _ hmid] at hcl
            have hcmid : c ∈ (gecko.take k).drop m :=
              List.mem_of_getLast?_eq_some hcl
            have hmidsub : (gecko.take k).drop m ⊆ gecko.drop m := by
              rw [List.drop_take]
              exact List.take_subset _ _
            have hcdm : c ∈ gecko.drop m := hmidsub hcmid
            rcases mem_nonEmptyShas.mp (hup ▸ hcm) with ⟨d, hdm, hdne, hds⟩
            have hdg : d ∈ gecko := List.take_subset m gecko hdm
            have hcg : c ∈ gecko := List.drop_subset m gecko hcdm
            have hdc : d = c := List.inj_on_of_nodup_map hnd hdg hcg hds
            have hdisj := List.disjoint_take_drop (List.Nodup.of_map _ hnd)
              (le_refl m)
            exact hdisj (hdc ▸ hdm) hcdm
        have hupk : up = Replay.nonEmptyShas (gecko.take k) := by
          have hsplit : gecko.take m = gecko.take k ++ (gecko.take m).drop k := by
            conv_lhs => rw [← List.take_append_drop k (gecko.take m)]
            rw [List.take_take, min_eq_left hkm]
          have hmid2 : Replay.nonEmptyShas ((gecko.take m).drop k) = [] := by
            rw [List.eq_nil_iff_forall_not_mem]
            intro x hx
            rcases mem_nonEmptyShas.mp hx with ⟨d, hdm, hdne, hds⟩
            have hd1 : d ∈ gecko.drop k := by
              have hsub : (gecko.take m).drop k ⊆ gecko.drop k := by
                rw [List.drop_take]
                exact List.take_subset _ _
              exact hsub hdm
            refine hdrop d hd1 ?_
            rw [hup]
            exact mem_nonEmptyShas.mpr
              ⟨d, List.drop_subset k (gecko.take m) hdm, hdne, rfl⟩
          rw [hup]
          conv_lhs => rw [hsplit]
          rw [nonEmptyShas_append, hmid2, List.append_nil]
        have hnotrunc : ¬((Replay.matchingCommits gecko up).length < up.length) := by
          rw [hmlen, hupk]
          have hle := length_nonEmptyShas_le (gecko.take k)
          rw [List.length_take] at hle
          have hmink : min k gecko.length = k := min_eq_left hk
          omega
        rw [if_neg (by rw [hmlen]; exact hk0), if_neg hnotrunc]
        rw [hmlen, foldl_addCommit, hupk, ← nonEmptyShas_append,
          List.take_append_drop]

/-- Running update_wpt_commits on a canonical state returns false exactly when
the gecko range is empty or every gecko commit produced an upstream commit. -/
theorem update_changed_canonical (gecko : List Replay.GeckoC) :
    (Replay.update_wpt_commits ⟨gecko, Replay.nonEmptyShas gecko⟩).changed = false
      ↔ (gecko = [] ∨ ∀ c ∈ gecko, c.patchEmpty = false) := by
  set up := Replay.nonEmptyShas gecko with hup
  obtain ⟨k, hk, hmatch, hdrop, hlast⟩ := matchingCommits_spec gecko up
  have hmlen : (Replay.matchingCommits gecko up).length = k := by
    rw [hmatch, List.length_take]
    exact min_eq_left hk
  unfold Replay.update_wpt_commits
  dsimp only
  by_cases hg : gecko.length = 0
  · rw [if_pos hg]
    have hnil : gecko = [] := List.length_eq_zero.mp hg
    subst hnil
    simp
  · rw [if_neg hg]
    have hgne : gecko ≠ [] := fun h => hg (by rw [h]; rfl)
    by_cases hearly :
        (Replay.matchingCommits gecko up).length = gecko.length ∧
          gecko.length = up.length
    · rw [if_pos hearly]
      dsimp only
      refine iff_of_true rfl (Or.inr ?_)
      rw [← length_nonEmptyShas_eq_iff, ← hup]
      exact hearly.2.symm
    · rw [if_neg hearly]
      dsimp only
      refine iff_of_false (by simp) ?_
      rintro (h | hall)
      · exact hgne h
      · apply hearly
        have hlenup : up.length = gecko.length := by
          rw [hup]
          exact (length_nonEmptyShas_eq_iff gecko).mpr hall
        have hkn : k = gecko.length := by
          by_contra hne
          have hklt : k < gecko.length := lt_of_le_of_ne hk hne
          have hdne : gecko.drop k ≠ [] := by
            intro hdnil
            have := congrArg List.length hdnil
            rw [List.length_drop] at this
            simp at this
            omega
          obtain ⟨c, hcd⟩ := List.exists_mem_of_ne_nil _ hdne
          have hcg : c ∈ gecko := List.drop_subset k gecko hcd
          refine hdrop c hcd ?_
          rw [hup]
          exact mem_nonEmptyShas.mpr ⟨c, hcg, hall c hcg, rfl⟩
        exact ⟨by rw [hmlen]; exact hkn, hlenup.symm⟩

/-- Claim C1: for every list L of gecko commits, remove_complete_backouts(L)
equals the cancellation law of the spec (iterate L maintaining a set S, push
the hash of each non-backout, cancel a backout whose backed-out set is
contained in S, keep any other backout, and output the subsequence of L whose
hashes remain in S), and the output is a subsequence of L in the order of L. -/
theorem c1_remove_complete_backouts (commits : List Backouts.GCommit) :
    Backouts.remove_complete_backouts commits = Backouts.cancellationLaw commits ∧
      (Backouts.remove_complete_backouts commits).Sublist commits := by
  constructor
  · unfold Backouts.remove_complete_backouts Backouts.cancellationLaw
    rw [backoutStep_eq_cancellationStep]
  · exact List.filter_sublist commits

/-- Claim C2: evaluation at the failing input.  When the lookup returns the
two open syncs s5a (seq-id 0) and s5b (seq-id 1) for bug 5, the code picks
s5a, the first element of the lookup result, because the unconditional
`if syncs: sync = syncs[0]` overwrites the recovery pick; the claim requires
the most-recently-created sync s5b.  The first conjunct shows the recovery
branch is dead on every input. -/
theorem c2_pick_overridden :
    (∀ syncs : List Push.SyncRec, Push.pickSync syncs = syncs.head?) ∧
      Push.pickSync [s5a, s5b] = some s5a ∧
      Push.specMostRecent [s5a, s5b] = some s5b ∧
      s5a ≠ s5b := by
  refine ⟨pickSync_eq_head, ?_, ?_, ?_⟩
  · rw [pickSync_eq_head]; rfl
  · decide
  · decide

/-- Claim C8 (spec-modelled status setter): every transition the validating
setter lets through either re-asserts the current status or is a member of
`status_transitions`, and the `status_transitions` attribute of UpstreamSync
is exactly the allowed set of spec section 3.5. -/
theorem c8_status_transitions :
    (∀ cur newStatus st, setStatus cur newStatus = Except.ok st → st ≠ cur →
        (cur, st) ∈ statusTransitions) ∧
      statusTransitions = specAllowedTransitions := by
  constructor
  · intro cur newStatus st h hne
    unfold setStatus at h
    by_cases heq : cur = newStatus
    · rw [if_pos heq] at h
      injection h with h2
      exact absurd h2.symm hne
    · rw [if_neg heq] at h
      by_cases hmem : (cur, newStatus) ∈ statusTransitions
      · rw [if_pos hmem] at h
        cases h
        exact hmem
      · rw [if_neg hmem] at h
        cases h
  · rfl

/-- Claim C8 witness: the setter lets open to complete through, and that pair
is in the transition table. -/
theorem c8_witness : (Status.opn, Status.complete) ∈ statusTransitions :=
  c8_status_transitions.1 Status.opn Status.complete Status.complete rfl (by decide)

/-- Claim C9 counterexample: finishing an open sync to complete with remote
branch 4 set, when the remote deletion fails with a GitCommandError, swallows
the error and attempts the deletion but leaves remote_branch still set to 4,
contradicting the claim that remote_branch is always cleared afterwards. -/
theorem c9_counterexample :
    finishU Status.opn Status.complete (some 4) false =
      Except.ok (Status.complete, some 4, [GhAction.deleteBranch 4]) := by
  rfl

/-- Claim C9 amended: for a terminal status and a valid transition, finish
attempts the deletion of the remote branch, never propagates the deletion
error, and clears remote_branch exactly when the deletion succeeded. -/
theorem c9_amended (cur newStatus : Status) (b : Nat) (deleteOk : Bool)
    (hterm : newStatus = Status.wptMerged ∨ newStatus = Status.complete)
    (hvalid : cur = newStatus ∨ (cur, newStatus) ∈ statusTransitions) :
    finishU cur newStatus (some b) deleteOk =
      Except.ok (newStatus, (if deleteOk then none else some b),
        [GhAction.deleteBranch b]) := by
  rcases hterm with h1 | h1 <;> subst h1
  all_goals rcases hvalid with h | h
  all_goals first
    | (subst h; cases deleteOk <;> rfl)
    | (cases cur <;> first
        | exact absurd h (by decide)
        | (cases deleteOk <;> rfl))

/-- Claim C9 witness: finishing open to complete with remote branch 4 and a
successful deletion clears the branch. -/
theorem c9_witness :
    finishU Status.opn Status.complete (some 4) true =
      Except.ok (Status.complete, none, [GhAction.deleteBranch 4]) :=
  c9_amended Status.opn Status.complete 4 true (Or.inr rfl) (Or.inr (by decide))

/-- Claim C6: the CI evaluation returns SUCCESS exactly when all required
checks are completed with conclusion success or neutral; PENDING exactly when
some check is not completed and the SUCCESS condition fails; and FAILURE
exactly when the SUCCESS condition fails and every check is completed. -/
theorem c6_get_check_status (checks : List Checks.CheckRun) :
    (Checks.get_check_status checks = Checks.CheckStatus.SUCCESS ↔
        Checks.specSuccessCond checks) ∧
      (Checks.get_check_status checks = Checks.CheckStatus.PENDING ↔
        (Checks.specPendingCond checks ∧ ¬Checks.specSuccessCond checks)) ∧
      (Checks.get_check_status checks = Checks.CheckStatus.FAILURE ↔
        (¬Checks.specSuccessCond checks ∧ ¬Checks.specPendingCond checks)) := by
  unfold Checks.get_check_status
  by_cases hp : Checks.commit_checks_pass checks = true
  · have hs : Checks.specSuccessCond checks := (commit_checks_pass_iff checks).mp hp
    rw [if_pos hp]
    refine ⟨iff_of_true rfl hs, ?_, ?_⟩
    · constructor
      · intro h
        exact absurd h (by decide)
      · rintro ⟨-, hns⟩
        exact absurd hs hns
    · constructor
      · intro h
        exact absurd h (by decide)
      · rintro ⟨hns, -⟩
        exact absurd hs hns
  · have hns : ¬Checks.specSuccessCond checks :=
      fun hs => hp ((commit_checks_pass_iff checks).mpr hs)
    rw [if_neg hp]
    by_cases hc : Checks.commit_checks_complete checks = true
    · have hcc := (commit_checks_complete_iff checks).mp hc
      have hnp : ¬Checks.specPendingCond checks := by
        rintro ⟨c, hcm, hne⟩
        exact hne (hcc c hcm)
      rw [if_neg (by simp [hc])]
      refine ⟨?_, ?_, iff_of_true rfl ⟨hns, hnp⟩⟩
      · exact ⟨fun h => absurd h (by decide), fun hs => absurd hs hns⟩
      · exact ⟨fun h => absurd h (by decide), fun hpd => absurd hpd.1 hnp⟩
    · have hcf : Checks.commit_checks_complete checks = false := by
        cases h2 : Checks.commit_checks_complete checks
        · rfl
        · exact absurd h2 hc
      have hpend : Checks.specPendingCond checks := by
        have hne := mt (commit_checks_complete_iff checks).mpr hc
        push_neg at hne
        exact hne
      rw [if_pos (by simp [hcf])]
      refine ⟨⟨fun h => absurd h (by decide), fun hs => absurd hs hns⟩,
        iff_of_true rfl ⟨hpend, hns⟩, ?_⟩
      exact ⟨fun h => absurd h (by decide), fun hf => absurd hpend hf.2⟩

/-- Claim C3 counterexample: a sync whose gecko commits were emptied by a
later backout, with PR 3 open, is marked incomplete with its wpt commits left
alone, but the PR is CLOSED: update_github issues close_pull, contradicting
the claim that the PR is left open and untouched.  (The source comment on
lines 852 to 857 says exactly this: mark the PR as closed while leaving the
branch head unchanged so the PR can be reopened later.) -/
theorem c3_counterexample :
    Modified.update_modified_sync envG s3cex =
      Except.ok (⟨[], [5], Status.incomplete, some 3, none, false⟩,
        [GhAction.closePull 3]) := by
  rfl

/-- Claim C3 amended: when a later push empties the gecko range of an open or
incomplete sync, processing it sets the status to incomplete, leaves the wpt
commits unchanged, and closes the PR when one exists (the branch head is left
untouched so the PR can be reopened); no other remote call is made. -/
theorem c3_amended (env : Modified.GhEnv) (s : Modified.ModSync)
    (hg : s.gecko = [])
    (hst : s.status = Status.opn ∨ s.status = Status.incomplete) :
    Modified.update_modified_sync env s =
      Except.ok ({s with status := Status.incomplete},
        match s.pr with
        | some p => [GhAction.closePull p]
        | none => []) := by
  obtain ⟨g, w, st0, pr0, rb0, er0⟩ := s
  replace hg : g = [] := hg
  replace hst : st0 = Status.opn ∨ st0 = Status.incomplete := hst
  subst hg
  rcases hst with h | h <;> subst h <;> rcases pr0 with _ | p <;> rfl

/-- Claim C3 witness: an incomplete sync with empty gecko range and no PR is
re-marked incomplete with no remote call. -/
theorem c3_witness :
    Modified.update_modified_sync envG s3w =
      Except.ok (⟨[], [7], Status.incomplete, none, none, false⟩, []) :=
  c3_amended envG s3w rfl (Or.inr rfl)

/-- Claim C5 counterexample: the backout commit c0 (a backout of commit 10
from bug 9, itself authored against bug 7) is passed to updates_for_backout,
which queues sync s9 for update; but because line 754 is a plain `if`, the
commit then also reaches the per-bug branch, which matches it against the open
sync s7 for its own bug 7 and queues a second update entry.  The final state
therefore differs from the state produced by updates_for_backout alone, so
the backout was not handled by exactly one branch. -/
theorem c5_counterexample :
    Push.processCommit envP (⟨some [], []⟩, []) c0 =
        Except.ok (⟨some [], []⟩, [(some 9, (s9, 20)), (some 7, (s7, 20))]) ∧
      Push.updates_for_backout envP c0 =
        Except.ok (⟨some [], []⟩, [(some 9, (s9, 20))]) ∧
      ([(some 9, (s9, 20)), (some 7, (s7, 20))] : Push.UpdateMap) ≠
        [(some 9, (s9, 20))] := by
  refine ⟨rfl, rfl, ?_⟩
  decide

/-- Claim C5 amended: a commit not yet owned by a sync is processed as
follows: when it is a backout the result of updates_for_backout is merged
into both maps; after that, a downstream or landing commit gets no per-bug
handling, while every other commit, backouts included, additionally goes
through the per-bug match-or-create branch.  The two branches are not
mutually exclusive. -/
theorem c5_amended (env : Push.PushEnv) (st : Push.CreateMap × Push.UpdateMap)
    (c : Push.PushCommit) (h : c.hasUpstreamSync = false) :
    Push.processCommit env st c =
      (Push.backoutPhase env c st).map
        (fun st1 => if c.is_downstream || c.is_landing then st1
                    else Push.perBugPhase env c st1) := by
  unfold Push.processCommit Push.backoutPhase
  simp only [h, Bool.false_eq_true, if_false]
  cases hb : c.is_backout
  · simp only [Bool.false_eq_true, if_false]
    cases hdl : (c.is_downstream || c.is_landing) <;>
      simp [Except.map, hdl, pure, Except.pure] <;> rfl
  · simp only [if_true]
    cases hub : Push.updates_for_backout env c with
    | error e =>
      simp [Except.map, Except.bind, bind, hub]
    | ok v =>
      obtain ⟨cr, up⟩ := v
      cases hdl : (c.is_downstream || c.is_landing) <;>
        simp [Except.map, Except.bind, bind, hub, hdl, pure, Except.pure]

/-- Claim C5 amended witness: a backout against no bug with no known syncs is
processed by both updates_for_backout and the per-bug branch. -/
theorem c5_amended_witness :
    cW.hasUpstreamSync = false ∧
      Push.processCommit envW (⟨some [], []⟩, []) cW =
        (Push.backoutPhase envW cW (⟨some [], []⟩, [])).map
          (fun st1 => if cW.is_downstream || cW.is_landing then st1
                      else Push.perBugPhase envW cW st1) :=
  ⟨rfl, c5_amended envW (⟨some [], []⟩, []) cW rfl⟩

/-- Claim C4 counterexample: with gecko commits 1, 2, 3 and only sha1 3 in the
upstreamed index, the retained portion computed by update_wpt_commits is the
whole list (the backwards scan stops at the first upstreamed sha1 it meets,
here the last commit), while the longest prefix all of whose hashes are
present in the index is empty.  The two notions differ whenever the
upstreamed index has gaps, which the source comment on lines 265 to 268
explicitly anticipates for empty patches. -/
theorem c4_counterexample :
    Replay.matchingCommits [⟨1, false⟩, ⟨2, false⟩, ⟨3, false⟩] [3] ≠
      Replay.longestAllPresent [⟨1, false⟩, ⟨2, false⟩, ⟨3, false⟩] [3] := by
  decide

/-- Claim C4 amended: the retained portion of the side branch corresponds to
the prefix of gecko_commits running up to and including the LAST commit whose
hash is present in the upstreamed_gecko_commits index (empty when no hash is
present): every commit after the prefix has a hash outside the index, and a
non-empty prefix ends in a commit whose hash is in the index.  Every gecko
commit after that prefix is then re-applied via add_commit (the `replayed`
component of update_wpt_commits is exactly the rest of the list). -/
theorem c4_matching_prefix (gecko : List Replay.GeckoC) (up : List Nat) :
    ∃ k, k ≤ gecko.length ∧
      Replay.matchingCommits gecko up = gecko.take k ∧
      (∀ c ∈ gecko.drop k, c.sha1 ∉ up) ∧
      (k = 0 ∨ ∃ c, (gecko.take k).getLast? = some c ∧ c.sha1 ∈ up) ∧
      (Replay.update_wpt_commits ⟨gecko, up⟩).replayed = gecko.drop k := by
  obtain ⟨k, hk, hmatch, hdrop, hlast⟩ := matchingCommits_spec gecko up
  have hmlen : (Replay.matchingCommits gecko up).length = k := by
    rw [hmatch, List.length_take]
    exact min_eq_left hk
  refine ⟨k, hk, hmatch, hdrop, hlast, ?_⟩
  unfold Replay.update_wpt_commits
  dsimp only
  by_cases hg : gecko.length = 0
  · rw [if_pos hg]
    have hk0 : k = 0 := Nat.le_zero.mp (hg ▸ hk)
    have hnil : gecko = [] := List.length_eq_zero.mp hg
    subst hk0
    subst hnil
    rfl
  · rw [if_neg hg]
    by_cases hearly :
        (Replay.matchingCommits gecko up).length = gecko.length ∧
          gecko.length = up.length
    · rw [if_pos hearly]
      dsimp only
      have hkn : k = gecko.length := by
        rw [← hmlen]
        exact hearly.1
      rw [hkn, List.drop_length]
    · rw [if_neg hearly]
      dsimp only
      rw [hmlen]

/-- Claim C7 counterexample: a sync with gecko commits 1 (non-empty patch) and
2 (empty patch) starting from an empty side branch.  The first call replays
and leaves the branch at [1]; the second call, with no gecko change, leaves
the branch bit-identical but returns TRUE, because the length comparison
`len(matching) == len(gecko) == len(upstreamed)` fails whenever some gecko
commit produced no upstream commit. -/
theorem c7_counterexample :
    (Replay.update_wpt_commits
        (Replay.update_wpt_commits ⟨[⟨1, false⟩, ⟨2, true⟩], []⟩).state).changed = true ∧
      (Replay.update_wpt_commits
          (Replay.update_wpt_commits ⟨[⟨1, false⟩, ⟨2, true⟩], []⟩).state).state.wpt =
        (Replay.update_wpt_commits ⟨[⟨1, false⟩, ⟨2, true⟩], []⟩).state.wpt := by
  exact ⟨rfl, rfl⟩

/-- Claim C7 amended: starting from a sync whose wpt branch is the replay of a
prefix of its gecko commits (with distinct sha1s), calling update_wpt_commits
twice in succession with no gecko change leaves the wpt side branch
bit-identical after the second call, and the second call returns false
exactly when the gecko range is empty or every gecko commit produced an
upstream commit; when some gecko commit was dropped as an empty patch the
second call returns true even though nothing changes. -/
theorem c7_second_replay (gecko : List Replay.GeckoC) (m : Nat)
    (hnd : (gecko.map Replay.GeckoC.sha1).Nodup) :
    (Replay.update_wpt_commits
          (Replay.update_wpt_commits
            ⟨gecko, Replay.nonEmptyShas (gecko.take m)⟩).state).state.wpt =
        (Replay.update_wpt_commits
          ⟨gecko, Replay.nonEmptyShas (gecko.take m)⟩).state.wpt ∧
      ((Replay.update_wpt_commits
          (Replay.update_wpt_commits
            ⟨gecko, Replay.nonEmptyShas (gecko.take m)⟩).state).changed = false
        ↔ (gecko = [] ∨ ∀ c ∈ gecko, c.patchEmpty = false)) := by
  have h1 := update_canonical gecko m hnd
  have h2 := update_canonical gecko gecko.length hnd
  rw [List.take_length] at h2
  constructor
  · rw [h1, h2]
  · rw [h1]
    exact update_changed_canonical gecko

/-- Claim C7 amended witness: a single non-empty gecko commit replayed from an
empty branch; the second call is a no-op returning false. -/
theorem c7_second_replay_witness :
    (([⟨1, false⟩] : List Replay.GeckoC).map Replay.GeckoC.sha1).Nodup ∧
      ((Replay.update_wpt_commits
          (Replay.update_wpt_commits
            ⟨[⟨1, false⟩], Replay.nonEmptyShas (([⟨1, false⟩] :
              List Replay.GeckoC).take 0)⟩).state).state.wpt =
        (Replay.update_wpt_commits
          ⟨[⟨1, false⟩], Replay.nonEmptyShas (([⟨1, false⟩] :
            List Replay.GeckoC).take 0)⟩).state.wpt ∧
      ((Replay.update_wpt_commits
          (Replay.update_wpt_commits
            ⟨[⟨1, false⟩], Replay.nonEmptyShas (([⟨1, false⟩] :
              List Replay.GeckoC).take 0)⟩).state).changed = false
        ↔ (([⟨1, false⟩] : List Replay.GeckoC) = [] ∨
            ∀ c ∈ ([⟨1, false⟩] : List Replay.GeckoC), c.patchEmpty = false))) :=
  ⟨by decide, c7_second_replay [⟨1, false⟩] 0 (by decide)⟩

/-- Claim C10: gecko_landed returns true exactly when the gecko commit list is
non-empty and every commit is an ancestor of central; it returns false, rather
than raising, on the empty list and on a mix of landed and unlanded commits. -/
theorem c10_gecko_landed (commits : List Nat) (anc : Nat → Bool) :
    Landed.gecko_landed commits anc = true ↔
      (commits ≠ [] ∧ ∀ c ∈ commits, anc c = true) := by
  cases commits with
  | nil => simp [Landed.gecko_landed]
  | cons a as =>
    have hlen : ¬((a :: as).length = 0) := by simp
    simp only [Landed.gecko_landed, if_neg hlen, List.map_cons, List.headD_cons]
    cases hall : (anc a :: as.map anc).all (fun item => item == anc a) with
    | false =>
      rw [show (if !false then false else anc a) = false from rfl]
      simp only [Bool.false_eq_true, false_iff]
      rintro ⟨-, hallm⟩
      have hth : (anc a :: as.map anc).all (fun item => item == anc a) = true := by
        rw [List.all_eq_true]
        intro x hx
        rcases List.mem_cons.mp hx with rfl | hx
        · exact beq_self_eq_true _
        · rcases List.mem_map.mp hx with ⟨c, hc, rfl⟩
          rw [hallm c (List.mem_cons_of_mem a hc), hallm a (List.mem_cons_self a as)]
          rfl
      rw [hall] at hth
      exact absurd hth (by decide)
    | true =>
      rw [show (if !true then false else anc a) = anc a from rfl]
      rw [List.all_eq_true] at hall
      constructor
      · intro hb
        refine ⟨by simp, ?_⟩
        intro c hc
        rcases List.mem_cons.mp hc with rfl | hc
        · exact hb
        · have hx := hall (anc c) (List.mem_cons_of_mem _ (List.mem_map.mpr ⟨c, hc, rfl⟩))
          rw [beq_iff_eq] at hx
          rw [hx]
          exact hb
      · rintro ⟨-, hallm⟩
        exact hallm a (List.mem_cons_self a as)

end WptSync
